import Mathlib

/-!
# Verification of the go-cache engine (src/demo.go, package `cache`)

Shallow embedding of the cache engine. Conventions:

* Go's `time.Time`/`time.Duration` are nanosecond `int64` values; we model both
  as `Int` (UnixNano instants and durations).  Every operation that calls
  `time.Now()` takes an explicit `now : Int` parameter; an operation that reads
  the clock once uses a single `now`, as `DeleteExpired` does in the source.
* The Go map `map[string]Item[T]` is modelled as an association list with
  map semantics: assignment replaces the binding in place, `delete` removes it,
  lookup finds the (unique) binding.
* The cache is instantiated at `T = any`, as in the repository's tests, so the
  payload is the closed tagged union `GoVal` over the concrete runtime kinds
  that `Increment`/`Decrement` dispatch on, with `VStr`/`VBool` standing for
  the kinds that fall into the `default` branch of the type switch.
* Fixed-width Go integers: a signed value of width `w` is an `Int` in
  `[-2^(w-1), 2^(w-1))`, an unsigned value a `Nat` in `[0, 2^w)`; Go's
  conversions and two's-complement wraparound arithmetic are spelled out with
  `% 2^w` (`sconv`, `uconv`, `goAddS`, `goAddU`, `goSubS`, `goSubU`).
  The platform kinds `int`, `uint`, `uintptr` are 64-bit (amd64/arm64).
* `float32`/`float64` payloads are modelled with exact rational contents: no
  claim below inspects a float result beyond which branch of the type switch
  was taken, so IEEE rounding is irrelevant to every statement in this file.
* The eviction callback `onEvicted func(string, any)` has no observable effect
  in the model except being invoked, so the state records only whether one is
  registered (`onEvicted : Bool`) and `Delete`/`DeleteExpired` return the list
  of `(key, payload)` invocations they perform, in invocation order.
* Go returns errors as `fmt.Errorf` values; the three distinct messages are
  mapped to the spec's taxonomy `alreadyExists` / `notFound` / `wrongType`.
  A fallible operation returns `Cache × Option CacheError`: the (possibly
  unchanged) table plus the error, mirroring a method that mutates its
  receiver and returns `error`.
-/

namespace GoCache

/-- Go conversion `intW(n)` of an integer to a signed width-`w` value:
two's-complement truncation to `[-2^(w-1), 2^(w-1))`. -/
def sconv (w : Nat) (n : Int) : Int :=
  (n + 2 ^ (w - 1)) % 2 ^ w - 2 ^ (w - 1)

/-- Go conversion `uintW(n)` of an integer to an unsigned width-`w` value:
truncation to `[0, 2^w)`. -/
def uconv (w : Nat) (n : Int) : Nat :=
  (n % 2 ^ w).toNat

/-- Go signed addition `x + intW(n)` at width `w`: the delta is first
converted to the width, then added with two's-complement wraparound. -/
def goAddS (w : Nat) (x n : Int) : Int :=
  sconv w (x + sconv w n)

/-- Go signed subtraction `x - intW(n)` at width `w`. -/
def goSubS (w : Nat) (x n : Int) : Int :=
  sconv w (x - sconv w n)

/-- Go unsigned addition `x + uintW(n)` at width `w`: the delta is first
converted to the width, then added modulo `2^w`. -/
def goAddU (w : Nat) (x : Nat) (n : Int) : Nat :=
  (x + uconv w n) % 2 ^ w

/-- Go unsigned subtraction `x - uintW(n)` at width `w`, wrapping below
zero to the top of the range. -/
def goSubU (w : Nat) (x : Nat) (n : Int) : Nat :=
  (((x : Int) - (uconv w n : Int)) % 2 ^ w).toNat

/-- The dynamic (`any`) payload: one constructor per arm of the type switch in
`Increment`/`Decrement`, plus `VStr`/`VBool` as representatives of the kinds
handled by its `default` arm.  `VInt`/`VUint`/`VUintptr` are the 64-bit
platform kinds.  Float contents are exact rationals (see the header). -/
inductive GoVal where
  | VInt (x : Int)
  | VInt8 (x : Int)
  | VInt16 (x : Int)
  | VInt32 (x : Int)
  | VInt64 (x : Int)
  | VUint (x : Nat)
  | VUintptr (x : Nat)
  | VUint8 (x : Nat)
  | VUint16 (x : Nat)
  | VUint32 (x : Nat)
  | VUint64 (x : Nat)
  | VFloat32 (q : Rat)
  | VFloat64 (q : Rat)
  | VStr (s : String)
  | VBool (b : Bool)
  deriving DecidableEq, Repr

/-- `Item[T]`: payload plus absolute expiration instant in UnixNano
(`0` means "no expiration"). -/
structure Item where
  Object : GoVal
  Expiration : Int
  deriving DecidableEq, Repr

/-- `func (item Item[T]) Expired() bool`:
`item.Expiration == 0` is "never"; otherwise expired iff `now` is strictly
past the stored instant. -/
def Item.Expired (item : Item) (now : Int) : Bool :=
  if item.Expiration = 0 then false
  else decide (item.Expiration < now)

/-- `NoExpiration time.Duration = -1`. -/
def NoExpiration : Int := -1

/-- `DefaultExpiration time.Duration = 0`. -/
def DefaultExpiration : Int := 0

/-- The engine state: default TTL, the entry table, and whether an eviction
callback is registered (`onEvicted != nil`). -/
structure Cache where
  defaultExpiration : Int
  items : List (String × Item)
  onEvicted : Bool
  deriving DecidableEq, Repr

/-- Map lookup `item, found := c.items[k]`. -/
def lookupItem (items : List (String × Item)) (k : String) : Option Item :=
  match items with
  | [] => none
  | kv :: rest => if kv.1 = k then some kv.2 else lookupItem rest k

/-- Map assignment `c.items[k] = it`: replace the binding in place if the key
is present, otherwise append it. -/
def insertItem (items : List (String × Item)) (k : String) (it : Item) :
    List (String × Item) :=
  match items with
  | [] => [(k, it)]
  | kv :: rest => if kv.1 = k then (k, it) :: rest else kv :: insertItem rest k it

/-- Builtin `delete(c.items, k)`: remove the binding for `k` (no-op when
absent). -/
def eraseItem (items : List (String × Item)) (k : String) :
    List (String × Item) :=
  items.filter (fun kv => decide (kv.1 ≠ k))

/-- The spec's error taxonomy; the source returns `fmt.Errorf` values with one
message per constructor ("already exists" / "not found" / "is not an
integer" resp. "does not have type float32 or float64"). -/
inductive CacheError where
  | alreadyExists
  | notFound
  | wrongType
  deriving DecidableEq, Repr

/-- `func (c *cache[T]) Set(k string, x T, d time.Duration)`:
`d == DefaultExpiration` substitutes the engine default; a positive resulting
duration stamps the absolute instant `now + d`, otherwise the entry never
expires (`Expiration = 0`). Unconditional upsert. -/
def Cache.Set (c : Cache) (now : Int) (k : String) (x : GoVal) (d : Int) :
    Cache :=
  let d2 := if d = DefaultExpiration then c.defaultExpiration else d
  let e := if 0 < d2 then now + d2 else 0
  { c with items := insertItem c.items k { Object := x, Expiration := e } }

/-- `func (c *cache[T]) set(k string, x T, d time.Duration)`: the lock-free
twin of `Set` used inside `Add`/`Replace`; textually the same table update. -/
def Cache.set (c : Cache) (now : Int) (k : String) (x : GoVal) (d : Int) :
    Cache :=
  let d2 := if d = DefaultExpiration then c.defaultExpiration else d
  let e := if 0 < d2 then now + d2 else 0
  { c with items := insertItem c.items k { Object := x, Expiration := e } }

/-- `func (c *cache[T]) Get(k string) (any, bool)`: `none` models
`(nil, false)`; a physically present but expired entry reads as absent. -/
def Cache.Get (c : Cache) (now : Int) (k : String) : Option GoVal :=
  match lookupItem c.items k with
  | none => none
  | some item => if item.Expired now then none else some item.Object

/-- `func (c *cache[T]) get(k string) (v T, ok bool)`: the lock-free twin of
`Get` used inside `Add`/`Replace`. -/
def Cache.get (c : Cache) (now : Int) (k : String) : Option GoVal :=
  match lookupItem c.items k with
  | none => none
  | some item => if item.Expired now then none else some item.Object

/-- `func (c *cache[T]) Add(k string, x T, d time.Duration) error`:
fails when `c.get` finds a live entry, otherwise `c.set`. -/
def Cache.Add (c : Cache) (now : Int) (k : String) (x : GoVal) (d : Int) :
    Cache × Option CacheError :=
  match c.get now k with
  | some _ => (c, some CacheError.alreadyExists)
  | none => (c.set now k x d, none)

/-- `func (c *cache[T]) Replace(k string, x T, d time.Duration) error`:
fails when `c.get` finds no live entry, otherwise `c.set`. -/
def Cache.Replace (c : Cache) (now : Int) (k : String) (x : GoVal) (d : Int) :
    Cache × Option CacheError :=
  match c.get now k with
  | none => (c, some CacheError.notFound)
  | some _ => (c.set now k x d, none)

/-- The type switch of `Increment` over the payload's concrete kind: each arm
is Go's `vo + <kind>(n)` (convert the `int64` delta to the payload's kind,
then add in that kind's arithmetic); `int` and `int64` take the delta
unconverted since it already has their width. `none` models the `default`
arm. -/
def incGoVal (v : GoVal) (n : Int) : Option GoVal :=
  match v with
  | GoVal.VInt x => some (GoVal.VInt (sconv 64 (x + n)))
  | GoVal.VInt8 x => some (GoVal.VInt8 (goAddS 8 x n))
  | GoVal.VInt16 x => some (GoVal.VInt16 (goAddS 16 x n))
  | GoVal.VInt32 x => some (GoVal.VInt32 (goAddS 32 x n))
  | GoVal.VInt64 x => some (GoVal.VInt64 (sconv 64 (x + n)))
  | GoVal.VUint x => some (GoVal.VUint (goAddU 64 x n))
  | GoVal.VUintptr x => some (GoVal.VUintptr (goAddU 64 x n))
  | GoVal.VUint8 x => some (GoVal.VUint8 (goAddU 8 x n))
  | GoVal.VUint16 x => some (GoVal.VUint16 (goAddU 16 x n))
  | GoVal.VUint32 x => some (GoVal.VUint32 (goAddU 32 x n))
  | GoVal.VUint64 x => some (GoVal.VUint64 (goAddU 64 x n))
  | GoVal.VFloat32 q => some (GoVal.VFloat32 (q + (n : Rat)))
  | GoVal.VFloat64 q => some (GoVal.VFloat64 (q + (n : Rat)))
  | GoVal.VStr _ => none
  | GoVal.VBool _ => none

/-- The type switch of `Decrement`: each arm is Go's `vo - <kind>(n)`. -/
def decGoVal (v : GoVal) (n : Int) : Option GoVal :=
  match v with
  | GoVal.VInt x => some (GoVal.VInt (sconv 64 (x - n)))
  | GoVal.VInt8 x => some (GoVal.VInt8 (goSubS 8 x n))
  | GoVal.VInt16 x => some (GoVal.VInt16 (goSubS 16 x n))
  | GoVal.VInt32 x => some (GoVal.VInt32 (goSubS 32 x n))
  | GoVal.VInt64 x => some (GoVal.VInt64 (sconv 64 (x - n)))
  | GoVal.VUint x => some (GoVal.VUint (goSubU 64 x n))
  | GoVal.VUintptr x => some (GoVal.VUintptr (goSubU 64 x n))
  | GoVal.VUint8 x => some (GoVal.VUint8 (goSubU 8 x n))
  | GoVal.VUint16 x => some (GoVal.VUint16 (goSubU 16 x n))
  | GoVal.VUint32 x => some (GoVal.VUint32 (goSubU 32 x n))
  | GoVal.VUint64 x => some (GoVal.VUint64 (goSubU 64 x n))
  | GoVal.VFloat32 q => some (GoVal.VFloat32 (q - (n : Rat)))
  | GoVal.VFloat64 q => some (GoVal.VFloat64 (q - (n : Rat)))
  | GoVal.VStr _ => none
  | GoVal.VBool _ => none

/-- `func (c *cache[T]) Increment(k string, n int64) error`:
`NotFound` when the key is absent or its entry expired; otherwise dispatch on
the payload kind (`WrongType` from the `default` arm), writing the updated
copy back with the stored `Expiration` untouched. -/
def Cache.Increment (c : Cache) (now : Int) (k : String) (n : Int) :
    Cache × Option CacheError :=
  match lookupItem c.items k with
  | none => (c, some CacheError.notFound)
  | some v =>
    if v.Expired now then (c, some CacheError.notFound)
    else
      match incGoVal v.Object n with
      | none => (c, some CacheError.wrongType)
      | some w =>
        ({ c with items := insertItem c.items k { Object := w, Expiration := v.Expiration } },
         none)

/-- `func (c *cache[T]) Decrement(k string, n int64) error`. -/
def Cache.Decrement (c : Cache) (now : Int) (k : String) (n : Int) :
    Cache × Option CacheError :=
  match lookupItem c.items k with
  | none => (c, some CacheError.notFound)
  | some v =>
    if v.Expired now then (c, some CacheError.notFound)
    else
      match decGoVal v.Object n with
      | none => (c, some CacheError.wrongType)
      | some w =>
        ({ c with items := insertItem c.items k { Object := w, Expiration := v.Expiration } },
         none)

/-- `func (c *cache[T]) delete(k string) (vo T, ok bool)`: the payload is
reported back (for the callback) only when a callback is registered and the
key was physically present; the binding is removed in every case.  The
`Option` is the returned `(vo, ok)` pair. -/
def Cache.del (c : Cache) (k : String) : Cache × Option GoVal :=
  if c.onEvicted then
    match lookupItem c.items k with
    | some v => ({ c with items := eraseItem c.items k }, some v.Object)
    | none => ({ c with items := eraseItem c.items k }, none)
  else ({ c with items := eraseItem c.items k }, none)

/-- `func (c *cache[T]) Delete(k string)`: remove, then (outside the lock)
invoke the callback once when `delete` reported an eviction.  The returned
list is the sequence of callback invocations performed. -/
def Cache.Delete (c : Cache) (k : String) : Cache × List (String × GoVal) :=
  match c.del k with
  | (c2, some v) => (c2, [(k, v)])
  | (c2, none) => (c2, [])

/-- The sweep condition `v.Expiration > 0 && now > v.Expiration`. -/
def sweepCond (now : Int) (it : Item) : Bool :=
  decide (0 < it.Expiration ∧ it.Expiration < now)

/-- The `for k, v := range c.items` loop body of `DeleteExpired`, iterating
over a snapshot of the table (the loop only ever deletes the key it is
visiting, so ranging over the live Go map is equivalent): delete each entry
matching the sweep condition and collect the `(key, payload)` pairs that
`delete` reported as evicted, in iteration order. -/
def sweepLoop (now : Int) (c : Cache) :
    List (String × Item) → Cache × List (String × GoVal)
  | [] => (c, [])
  | kv :: rest =>
    if sweepCond now kv.2 then
      match c.del kv.1 with
      | (c2, some ov) =>
        match sweepLoop now c2 rest with
        | (c3, evs) => (c3, (kv.1, ov) :: evs)
      | (c2, none) => sweepLoop now c2 rest
    else sweepLoop now c rest

/-- `func (c *cache[T]) DeleteExpired()`: capture `now` once, sweep the whole
table, then (outside the lock) invoke the callback once per collected pair.
The returned list is the sequence of callback invocations performed. -/
def Cache.DeleteExpired (c : Cache) (now : Int) :
    Cache × List (String × GoVal) :=
  sweepLoop now c c.items

/-- `func newCache[T any](de time.Duration, m map[string]Item[T]) *cache[T]`:
a `de` of `DefaultExpiration` collapses to `NoExpiration`; no callback is
registered. -/
def newCache (de : Int) (m : List (String × Item)) : Cache :=
  { defaultExpiration := if de = DefaultExpiration then NoExpiration else de
    items := m
    onEvicted := false }

/-- `func New[T any](defaultExpiration, cleanupInterval time.Duration)`: an
empty table via `newCacheWithJanitor`; in this source the janitor body is
empty (`if ci > 0 \x7b // pass \x7d`), so `cleanupInterval` has no effect on
the state. -/
def New (de : Int) (_ci : Int) : Cache :=
  newCache de []

/-- `func (c *cache[T]) OnEvicted(f func(string, any))`: register (or, with
`false`, clear) the eviction callback. -/
def Cache.OnEvicted (c : Cache) (b : Bool) : Cache :=
  { c with onEvicted := b }

/-- The payload kinds accepted by the type switch of `Increment`/`Decrement`
(the eleven integer kinds and the two float kinds). -/
def isArith (v : GoVal) : Bool :=
  match v with
  | GoVal.VStr _ => false
  | GoVal.VBool _ => false
  | _ => true

/-- The spec's glossary notion "live entry": physically present and not yet
expired at the observation instant.  Used to state the `Add`/`Replace`
contracts; the theorems below relate it to what the code's `get` computes. -/
def isLive (c : Cache) (now : Int) (k : String) : Bool :=
  match lookupItem c.items k with
  | none => false
  | some it => ! it.Expired now

/-- A one-entry table holding a never-expiring string payload, no callback
(for concrete instantiations of the theorems below). -/
def strCache : Cache :=
  { defaultExpiration := NoExpiration
    items := [("s", { Object := GoVal.VStr "v", Expiration := 0 })]
    onEvicted := false }

/-- A one-entry table holding a never-expiring `float32` payload `1`. -/
def floatCache : Cache :=
  { defaultExpiration := NoExpiration
    items := [("f", { Object := GoVal.VFloat32 1, Expiration := 0 })]
    onEvicted := false }

/-- A one-entry table holding a never-expiring `uint8` payload `x`. -/
def u8Cache (x : Nat) : Cache :=
  { defaultExpiration := NoExpiration
    items := [("u", { Object := GoVal.VUint8 x, Expiration := 0 })]
    onEvicted := false }

/-- Keys of the table are pairwise distinct: the Go-map invariant, preserved
by every operation of the engine. -/
def keysNodup (l : List (String × Item)) : Prop :=
  (l.map Prod.fst).Nodup

instance (l : List (String × Item)) : Decidable (keysNodup l) :=
  inferInstanceAs (Decidable ((l.map Prod.fst).Nodup))

/-- A two-entry table, eviction callback registered: key `"e"` expires at
instant 5, key `"n"` never expires. -/
def mixCache : Cache :=
  { defaultExpiration := NoExpiration
    items := [("e", { Object := GoVal.VInt 7, Expiration := 5 }),
              ("n", { Object := GoVal.VStr "keep", Expiration := 0 })]
    onEvicted := true }

/-! ## Map algebra -/

theorem lookupItem_insert (l : List (String × Item)) (k : String) (it : Item) :
    lookupItem (insertItem l k it) k = some it := by
  induction l with
  | nil => simp [insertItem, lookupItem]
  | cons kv rest ih =>
    by_cases h : kv.1 = k
    · simp [insertItem, h, lookupItem]
    · simp [insertItem, h, lookupItem, ih]

theorem lookupItem_insert_ne (l : List (String × Item)) (k k2 : String)
    (it : Item) (h : ¬ k = k2) :
    lookupItem (insertItem l k it) k2 = lookupItem l k2 := by
  induction l with
  | nil => simp [insertItem, lookupItem, h]
  | cons kv rest ih =>
    by_cases hk : kv.1 = k
    · rw [show insertItem (kv :: rest) k it = (k, it) :: rest by
        simp [insertItem, hk]]
      have hkv : ¬ kv.1 = k2 := by rw [hk]; exact h
      simp [lookupItem, h, hkv]
    · rw [show insertItem (kv :: rest) k it = kv :: insertItem rest k it by
        simp [insertItem, hk]]
      by_cases hk2 : kv.1 = k2
      · simp [lookupItem, hk2]
      · simp [lookupItem, hk2, ih]

theorem lookupItem_append_left (pre rest : List (String × Item)) (k : String)
    (h : k ∉ pre.map Prod.fst) :
    lookupItem (pre ++ rest) k = lookupItem rest k := by
  induction pre with
  | nil => rfl
  | cons kv pre2 ih =>
    simp only [List.map_cons, List.mem_cons] at h
    push_neg at h
    have hne : ¬ kv.1 = k := by
      intro h2
      exact h.1 h2.symm
    simp [lookupItem, hne, ih h.2]

theorem lookupItem_cons_self (rest : List (String × Item)) (k : String)
    (it : Item) : lookupItem ((k, it) :: rest) k = some it := by
  simp [lookupItem]

theorem eraseItem_not_mem (l : List (String × Item)) (k : String)
    (h : k ∉ l.map Prod.fst) : eraseItem l k = l := by
  induction l with
  | nil => rfl
  | cons kv rest ih =>
    simp only [List.map_cons, List.mem_cons] at h
    push_neg at h
    have hne : ¬ kv.1 = k := by
      intro h2
      exact h.1 h2.symm
    have ih2 := ih h.2
    simp only [eraseItem, List.filter_cons] at ih2 ⊢
    rw [if_pos (by simp [hne]), ih2]

theorem eraseItem_cons_self (rest : List (String × Item)) (k : String)
    (it : Item) (h : k ∉ rest.map Prod.fst) :
    eraseItem ((k, it) :: rest) k = rest := by
  have h2 := eraseItem_not_mem rest k h
  simp only [eraseItem, List.filter_cons] at h2 ⊢
  rw [if_neg (by simp), h2]

theorem eraseItem_middle (pre rest : List (String × Item)) (k : String)
    (it : Item) (hpre : k ∉ pre.map Prod.fst) (hrest : k ∉ rest.map Prod.fst) :
    eraseItem (pre ++ (k, it) :: rest) k = pre ++ rest := by
  induction pre with
  | nil => exact eraseItem_cons_self rest k it hrest
  | cons kv pre2 ih =>
    simp only [List.map_cons, List.mem_cons] at hpre
    push_neg at hpre
    have hne : ¬ kv.1 = k := by
      intro h2
      exact hpre.1 h2.symm
    have ih2 := ih hpre.2
    simp only [eraseItem, List.filter_cons, List.cons_append] at ih2 ⊢
    rw [if_pos (by simp [hne]), ih2]

theorem lookupItem_eq_none (l : List (String × Item)) (k : String)
    (h : k ∉ l.map Prod.fst) : lookupItem l k = none := by
  induction l with
  | nil => rfl
  | cons kv rest ih =>
    simp only [List.map_cons, List.mem_cons] at h
    push_neg at h
    have hne : ¬ kv.1 = k := by
      intro h2
      exact h.1 h2.symm
    simp [lookupItem, hne, ih h.2]

theorem lookupItem_mem (l : List (String × Item)) (k : String) (it : Item)
    (h : lookupItem l k = some it) : (k, it) ∈ l := by
  induction l with
  | nil => simp [lookupItem] at h
  | cons kv rest ih =>
    obtain ⟨k1, it1⟩ := kv
    by_cases hk : k1 = k
    · simp only [lookupItem, hk, if_pos] at h
      rw [hk, Option.some_inj.mp h]
      exact List.mem_cons_self _ _
    · simp only [lookupItem] at h
      rw [if_neg hk] at h
      exact List.mem_cons_of_mem _ (ih h)

/-! ## Two's-complement arithmetic -/

theorem sconv_emod_self (w : Nat) (n : Int) :
    sconv w n % 2 ^ w = n % 2 ^ w := by
  unfold sconv
  rw [Int.sub_emod, Int.emod_emod_of_dvd _ dvd_rfl, ← Int.sub_emod,
    add_sub_cancel_right]

theorem sconv_congr (w : Nat) {a b : Int}
    (h : a % 2 ^ w = b % 2 ^ w) : sconv w a = sconv w b := by
  unfold sconv
  rw [Int.add_emod a, Int.add_emod b, h]

theorem goAddS_eq (w : Nat) (x n : Int) : goAddS w x n = sconv w (x + n) := by
  unfold goAddS
  apply sconv_congr
  rw [Int.add_emod x (sconv w n), sconv_emod_self, ← Int.add_emod]

theorem goSubS_eq (w : Nat) (x n : Int) : goSubS w x n = sconv w (x - n) := by
  unfold goSubS
  apply sconv_congr
  rw [Int.sub_emod x (sconv w n), sconv_emod_self, ← Int.sub_emod]

theorem uconv_cast (w : Nat) (n : Int) :
    ((uconv w n : Nat) : Int) = n % 2 ^ w := by
  unfold uconv
  exact Int.toNat_of_nonneg (Int.emod_nonneg n (by positivity))

theorem goAddU_eq (w : Nat) (x : Nat) (n : Int) :
    goAddU w x n = (((x : Int) + n) % 2 ^ w).toNat := by
  have hnn : (0 : Int) ≤ ((x : Int) + n) % 2 ^ w :=
    Int.emod_nonneg _ (by positivity)
  apply Int.natCast_inj.mp
  push_cast [goAddU]
  rw [uconv_cast, Int.toNat_of_nonneg hnn, Int.add_emod ((x : Int)),
    Int.emod_emod_of_dvd _ dvd_rfl, ← Int.add_emod]

theorem goSubU_eq (w : Nat) (x : Nat) (n : Int) :
    goSubU w x n = (((x : Int) - n) % 2 ^ w).toNat := by
  unfold goSubU
  rw [uconv_cast, Int.sub_emod ((x : Int)), Int.emod_emod_of_dvd _ dvd_rfl,
    ← Int.sub_emod]

theorem sconv_eq_self (w : Nat) (z : Int) (hw : 0 < w)
    (h1 : -(2 ^ (w - 1)) ≤ z) (h2 : z < 2 ^ (w - 1)) : sconv w z = z := by
  unfold sconv
  have hm : (2 : Int) ^ w = 2 ^ (w - 1) * 2 := by
    rw [← pow_succ]
    congr 1
    omega
  rw [Int.emod_eq_of_lt (by omega) (by omega)]
  omega

/-! ## The sweep -/

theorem sweepLoop_spec (now : Int) :
    ∀ (l pre : List (String × Item)) (c : Cache),
      c.items = pre ++ l →
      keysNodup (pre ++ l) →
      sweepLoop now c l =
        ({ c with items := pre ++ l.filter (fun kv => ! sweepCond now kv.2) },
         if c.onEvicted then
           (l.filter (fun kv => sweepCond now kv.2)).map
             (fun kv => (kv.1, kv.2.Object))
         else []) := by
  intro l
  induction l with
  | nil =>
    intro pre c hc hnd
    have hpre : pre = c.items := by simpa using hc.symm
    subst hpre
    simp [sweepLoop]
  | cons kv l ih =>
    intro pre c hc hnd
    obtain ⟨k, it⟩ := kv
    have hnd2 : (pre.map Prod.fst ++ k :: l.map Prod.fst).Nodup := by
      have hmap : (pre ++ (k, it) :: l).map Prod.fst
          = pre.map Prod.fst ++ k :: l.map Prod.fst := by simp
      rw [← hmap]
      exact hnd
    have hkpre : k ∉ pre.map Prod.fst := by
      intro hm
      exact (List.disjoint_of_nodup_append hnd2) hm (List.mem_cons_self _ _)
    have hkl : k ∉ l.map Prod.fst := by
      have h3 : (k :: l.map Prod.fst).Nodup := hnd2.of_append_right
      exact (List.nodup_cons.mp h3).1
    have hlook : lookupItem c.items k = some it := by
      rw [hc, lookupItem_append_left _ _ _ hkpre, lookupItem_cons_self]
    have herase : eraseItem c.items k = pre ++ l := by
      rw [hc]
      exact eraseItem_middle pre l k it hkpre hkl
    have hnd3 : keysNodup (pre ++ l) := by
      have hsub : List.Sublist ((pre ++ l).map Prod.fst)
          ((pre ++ (k, it) :: l).map Prod.fst) :=
        ((List.sublist_cons_self (k, it) l).append_left pre).map Prod.fst
      exact hnd.sublist hsub
    by_cases hcond : sweepCond now it = true
    · by_cases hev : c.onEvicted = true
      · have hdel : c.del k = ({ c with items := pre ++ l }, some it.Object) := by
          unfold Cache.del
          rw [if_pos hev, hlook, herase]
        have ih2 := ih pre { c with items := pre ++ l } rfl hnd3
        simp only [sweepLoop]
        rw [if_pos hcond]
        simp only [hdel]
        rw [ih2]
        simp [hev, List.filter_cons, hcond]
      · have hdel : c.del k = ({ c with items := pre ++ l }, none) := by
          unfold Cache.del
          rw [if_neg hev, herase]
        have ih2 := ih pre { c with items := pre ++ l } rfl hnd3
        simp only [sweepLoop]
        rw [if_pos hcond]
        simp only [hdel]
        rw [ih2]
        simp [hev, List.filter_cons, hcond]
    · have hc2 : c.items = (pre ++ [(k, it)]) ++ l := by
        rw [hc]
        simp
      have hnd4 : keysNodup ((pre ++ [(k, it)]) ++ l) := by
        have hmap2 : ((pre ++ [(k, it)]) ++ l).map Prod.fst
            = (pre ++ (k, it) :: l).map Prod.fst := by simp
        show (((pre ++ [(k, it)]) ++ l).map Prod.fst).Nodup
        rw [hmap2]
        exact hnd
      have ih2 := ih (pre ++ [(k, it)]) c hc2 hnd4
      simp only [sweepLoop]
      rw [if_neg hcond, ih2]
      simp [List.filter_cons, hcond]

/-- `DeleteExpired` on a table with distinct keys: the new table keeps exactly
the entries that do not match the sweep condition, and the callback fires once
per removed entry (in table order) when registered, not at all otherwise. -/
theorem deleteExpired_spec (c : Cache) (now : Int) (hnd : keysNodup c.items) :
    c.DeleteExpired now =
      ({ c with items := c.items.filter (fun kv => ! sweepCond now kv.2) },
       if c.onEvicted then
         (c.items.filter (fun kv => sweepCond now kv.2)).map
           (fun kv => (kv.1, kv.2.Object))
       else []) := by
  have h := sweepLoop_spec now c.items [] c (by simp) (by simpa using hnd)
  simpa [Cache.DeleteExpired] using h

theorem eraseItem_key_not_mem (l : List (String × Item)) (k : String) :
    k ∉ (eraseItem l k).map Prod.fst := by
  intro hm
  obtain ⟨kv, hkv, hfst⟩ := List.mem_map.mp hm
  have h2 := List.of_mem_filter hkv
  simp only [decide_eq_true_eq] at h2
  exact h2 hfst

theorem mem_lookup_unique (l : List (String × Item)) (k : String) (it : Item)
    (hnd : (l.map Prod.fst).Nodup) (h : (k, it) ∈ l) :
    lookupItem l k = some it := by
  induction l with
  | nil => simp at h
  | cons kv rest ih =>
    obtain ⟨k1, it1⟩ := kv
    rw [List.map_cons, List.nodup_cons] at hnd
    rcases List.mem_cons.mp h with h1 | h1
    · have hk : k1 = k := (congrArg Prod.fst h1).symm
      have hit : it1 = it := (congrArg Prod.snd h1).symm
      simp only [lookupItem]
      rw [if_pos hk, hit]
    · have hk1 : ¬ k1 = k := by
        intro he
        apply hnd.1
        rw [he]
        exact List.mem_map.mpr ⟨(k, it), h1, rfl⟩
      simp only [lookupItem]
      rw [if_neg hk1]
      exact ih hnd.2 h1

theorem filterKey_map_nil (l : List (String × Item)) (k : String)
    (p : String × Item → Bool) (h : k ∉ l.map Prod.fst) :
    ((l.filter p).map (fun kv => (kv.1, kv.2.Object))).filter
      (fun e => decide (e.1 = k)) = [] := by
  rw [List.filter_eq_nil_iff]
  intro e he
  obtain ⟨kv, hkv, hkve⟩ := List.mem_map.mp he
  have hmem : kv ∈ l := List.mem_of_mem_filter hkv
  have hne : ¬ kv.1 = k := by
    intro h2
    exact h (List.mem_map.mpr ⟨kv, hmem, h2⟩)
  rw [← hkve]
  simp [hne]

theorem filterKey_map_single (l : List (String × Item)) (k : String)
    (it : Item) (p : String × Item → Bool)
    (hnd : (l.map Prod.fst).Nodup) (hlook : lookupItem l k = some it)
    (hp : p (k, it) = true) :
    ((l.filter p).map (fun kv => (kv.1, kv.2.Object))).filter
      (fun e => decide (e.1 = k)) = [(k, it.Object)] := by
  induction l with
  | nil => simp [lookupItem] at hlook
  | cons kv rest ih =>
    obtain ⟨k1, it1⟩ := kv
    rw [List.map_cons, List.nodup_cons] at hnd
    by_cases hk : k1 = k
    · have hit : it1 = it := by
        simp only [lookupItem] at hlook
        rw [if_pos hk] at hlook
        exact Option.some_inj.mp hlook
      subst hk
      subst hit
      have hrest : k1 ∉ rest.map Prod.fst := hnd.1
      rw [List.filter_cons, if_pos (by simpa using hp), List.map_cons,
        List.filter_cons, if_pos (by simp)]
      rw [filterKey_map_nil rest k1 p hrest]
    · have hlook2 : lookupItem rest k = some it := by
        simp only [lookupItem] at hlook
        rwa [if_neg hk] at hlook
      have ih2 := ih hnd.2 hlook2
      rw [List.filter_cons]
      by_cases hpk : p (k1, it1) = true
      · rw [if_pos hpk, List.map_cons, List.filter_cons, if_neg (by simp [hk])]
        exact ih2
      · rw [if_neg hpk]
        exact ih2

theorem lookupItem_filter_none (l : List (String × Item)) (k : String)
    (it : Item) (p : String × Item → Bool)
    (hnd : (l.map Prod.fst).Nodup) (hlook : lookupItem l k = some it)
    (hp : p (k, it) = false) :
    lookupItem (l.filter p) k = none := by
  apply lookupItem_eq_none
  intro hm
  obtain ⟨kv, hkv, hfst⟩ := List.mem_map.mp hm
  have hmem : kv ∈ l := List.mem_of_mem_filter hkv
  obtain ⟨k1, it1⟩ := kv
  simp only at hfst
  subst hfst
  have : lookupItem l k1 = some it1 := mem_lookup_unique l k1 it1 hnd hmem
  rw [hlook] at this
  have hit : it = it1 := Option.some_inj.mp this
  subst hit
  rw [List.mem_filter] at hkv
  rw [hp] at hkv
  exact Bool.false_ne_true hkv.2

/-! ## Claims -/

/-- C1 counterexample: the claim says `Increment`/`Decrement` on a `float32`
payload fail with `WrongType` and leave the value unchanged.  In the code the
type switch has `float32`/`float64` arms, so on the table
`{"f" ↦ float32 1}` `Increment("f", 2)` returns no error and stores `3`:
the claim is false. -/
theorem C1_cex :
    (floatCache.Increment 0 "f" 2).2 = none ∧
    ¬ (floatCache.Increment 0 "f" 2).2 = some CacheError.wrongType ∧
    (floatCache.Increment 0 "f" 2).1.Get 0 "f" = some (GoVal.VFloat32 3) ∧
    (floatCache.Decrement 0 "f" 2).2 = none ∧
    ¬ (floatCache.Decrement 0 "f" 2).2 = some CacheError.wrongType ∧
    (floatCache.Decrement 0 "f" 2).1.Get 0 "f" = some (GoVal.VFloat32 (-1)) := by
  refine ⟨by decide, by decide, ?_, by decide, by decide, ?_⟩ <;>
    · norm_num [floatCache, Cache.Increment, Cache.Decrement, Cache.Get,
        lookupItem, insertItem, incGoVal, decGoVal, Item.Expired]

/-- C1 (amended): for a live entry whose payload kind is outside the type
switch's supported numeric set — neither one of the eleven integer kinds nor
`float32`/`float64` — `Increment(k, n)` and `Decrement(k, n)` fail with
`WrongType` and leave the table completely unchanged.  (Float payloads, which
the original claim also covered, are accepted by the switch: see `C1_cex`.) -/
theorem C1_wrongType_nonarith (c : Cache) (now : Int) (k : String) (n : Int)
    (it : Item) (hlook : lookupItem c.items k = some it)
    (hexp : it.Expired now = false) (hna : isArith it.Object = false) :
    c.Increment now k n = (c, some CacheError.wrongType) ∧
    c.Decrement now k n = (c, some CacheError.wrongType) := by
  have hinc : incGoVal it.Object n = none := by
    cases hobj : it.Object <;> rw [hobj] at hna <;>
      simp [isArith] at hna <;> rfl
  have hdec : decGoVal it.Object n = none := by
    cases hobj : it.Object <;> rw [hobj] at hna <;>
      simp [isArith] at hna <;> rfl
  constructor
  · unfold Cache.Increment
    simp [hlook, hexp, hinc]
  · unfold Cache.Decrement
    simp [hlook, hexp, hdec]

/-- C1 witness: the amended theorem applied to a concrete string payload. -/
theorem C1_witness :
    strCache.Increment 0 "s" 1 = (strCache, some CacheError.wrongType) ∧
    strCache.Decrement 0 "s" 1 = (strCache, some CacheError.wrongType) :=
  C1_wrongType_nonarith strCache 0 "s" 1
    { Object := GoVal.VStr "v", Expiration := 0 }
    (by decide) (by decide) (by decide)

/-- C10: the integer arms of `Increment`/`Decrement` first convert the
`int64` delta to the payload's width and then add or subtract with
wraparound: for unsigned widths the conversion-then-add pipeline equals
direct addition modulo `2^w`, for signed widths it equals the
two's-complement wrap of the direct sum; in particular `Decrement` of a
`uint8` payload `0` by `1` wraps to `255` rather than failing. -/
theorem C10_wraparound :
    (∀ (w x : Nat) (n : Int), goAddU w x n = (((x : Int) + n) % 2 ^ w).toNat) ∧
    (∀ (w x : Nat) (n : Int), goSubU w x n = (((x : Int) - n) % 2 ^ w).toNat) ∧
    (∀ (w : Nat) (x n : Int), goAddS w x n = sconv w (x + n)) ∧
    (∀ (w : Nat) (x n : Int), goSubS w x n = sconv w (x - n)) ∧
    ((u8Cache 0).Decrement 0 "u" 1).2 = none ∧
    ((u8Cache 0).Decrement 0 "u" 1).1.Get 0 "u" = some (GoVal.VUint8 255) := by
  refine ⟨goAddU_eq, goSubU_eq, goAddS_eq, goSubS_eq, by decide, by decide⟩

/-- C10 witness: the wraparound equations evaluated at concrete inputs. -/
theorem C10_witness :
    goAddU 8 250 10 = 4 ∧ goSubU 8 0 1 = 255 ∧ goAddS 8 120 10 = -126 :=
  ⟨by rw [C10_wraparound.1]; decide,
   by rw [C10_wraparound.2.1]; decide,
   by rw [C10_wraparound.2.2.1]; decide⟩

/-- C2: after `Set(k, v, d)` with `d > 0` (and a nonnegative clock reading),
`Get(k)` returns `(v, true)` at any instant up to and including `now + d` and
not-found at any instant strictly past `now + d`; and on an engine
constructed with `defaultExpiration` zero or negative, `Set(k, v,
DefaultExpiration)` yields an entry that `Get` finds at every instant. -/
theorem C2_set_get (c : Cache) (now t : Int) (k : String) (v : GoVal)
    (d : Int) (hd : 0 < d) (hnow : 0 ≤ now) :
    (t ≤ now + d → (c.Set now k v d).Get t k = some v) ∧
    (now + d < t → (c.Set now k v d).Get t k = none) ∧
    (∀ de ci t2 : Int, de ≤ 0 →
      ((New de ci).Set now k v DefaultExpiration).Get t2 k = some v) := by
  have hd0 : ¬ d = DefaultExpiration := by
    unfold DefaultExpiration
    omega
  have hset : c.Set now k v d
      = { c with items :=
            insertItem c.items k { Object := v, Expiration := now + d } } := by
    unfold Cache.Set
    simp only [if_neg hd0, if_pos hd]
  have hget : ∀ t2 : Int, (c.Set now k v d).Get t2 k
      = if now + d < t2 then none else some v := by
    intro t2
    rw [hset]
    unfold Cache.Get
    simp only [lookupItem_insert]
    unfold Item.Expired
    rw [if_neg (by omega : ¬ now + d = 0)]
    by_cases ht2 : now + d < t2
    · simp [ht2]
    · simp [ht2]
  refine ⟨?_, ?_, ?_⟩
  · intro ht
    rw [hget t, if_neg (by omega)]
  · intro ht
    rw [hget t, if_pos ht]
  · intro de ci t2 hde
    have hpos : ¬ (0 : Int) < (if de = DefaultExpiration then NoExpiration else de) := by
      unfold NoExpiration DefaultExpiration
      split <;> omega
    have hNd : (New de ci).defaultExpiration
        = if de = DefaultExpiration then NoExpiration else de := rfl
    have hNi : (New de ci).items = [] := rfl
    unfold Cache.Set
    simp only [hNd, hNi, eq_self_iff_true, if_true]
    rw [if_neg hpos]
    unfold Cache.Get
    simp only [lookupItem_insert]
    unfold Item.Expired
    simp

/-- C2 witness: the theorem applied at `now = 5`, `d = 10`: found at `t = 12`,
gone at `t = 16`, and a default-expiration entry found arbitrarily late. -/
theorem C2_witness :
    (strCache.Set 5 "a" (GoVal.VBool true) 10).Get 12 "a"
      = some (GoVal.VBool true) ∧
    (strCache.Set 5 "a" (GoVal.VBool true) 10).Get 16 "a" = none ∧
    ((New 0 0).Set 5 "a" (GoVal.VBool true) DefaultExpiration).Get 1000000 "a"
      = some (GoVal.VBool true) := by
  have h12 := C2_set_get strCache 5 12 "a" (GoVal.VBool true) 10
    (by decide) (by decide)
  have h16 := C2_set_get strCache 5 16 "a" (GoVal.VBool true) 10
    (by decide) (by decide)
  exact ⟨h12.1 (by decide), h16.2.1 (by decide),
    h12.2.2 0 0 1000000 (by decide)⟩

/-- C3 counterexample: the claim promises `Get(k) = x + n` for every stored
integer payload; with a `uint8` payload `250` and `n = 10` the code stores
the wrapped sum `4 = (250 + 10) mod 256`, not `260`. -/
theorem C3_cex :
    ((u8Cache 250).Increment 0 "u" 10).2 = none ∧
    ((u8Cache 250).Increment 0 "u" 10).1.Get 0 "u" = some (GoVal.VUint8 4) ∧
    ¬ ((u8Cache 250).Increment 0 "u" 10).1.Get 0 "u"
        = some (GoVal.VUint8 (250 + 10)) := by
  decide

/-- C3 (amended): on a live entry whose payload the type switch supports,
`Increment(k, n)` succeeds and a subsequent `Get(k)` returns the sum computed
in the payload's own machine arithmetic — equal to `x + n` whenever that sum
fits the payload's width (shown for `int64` and `uint8`) — `Decrement`
likewise with the difference, and the stored expiration instant is exactly
the same after the operation as before: only the payload is replaced. -/
theorem C3_increment_machine_sum (c : Cache) (now : Int) (k : String)
    (n : Int) (it : Item) (wi wd : GoVal)
    (hlook : lookupItem c.items k = some it)
    (hexp : it.Expired now = false)
    (hwi : incGoVal it.Object n = some wi)
    (hwd : decGoVal it.Object n = some wd) :
    (c.Increment now k n).2 = none ∧
    lookupItem (c.Increment now k n).1.items k
      = some { Object := wi, Expiration := it.Expiration } ∧
    (c.Increment now k n).1.Get now k = some wi ∧
    (c.Decrement now k n).2 = none ∧
    lookupItem (c.Decrement now k n).1.items k
      = some { Object := wd, Expiration := it.Expiration } ∧
    (c.Decrement now k n).1.Get now k = some wd ∧
    (∀ x : Int, it.Object = GoVal.VInt64 x →
      -(2 ^ 63) ≤ x + n → x + n < 2 ^ 63 → wi = GoVal.VInt64 (x + n)) ∧
    (∀ x : Nat, it.Object = GoVal.VUint8 x → 0 ≤ (x : Int) + n →
      (x : Int) + n < 2 ^ 8 → wi = GoVal.VUint8 ((x : Int) + n).toNat) := by
  have hinc : c.Increment now k n
      = ({ c with items :=
            insertItem c.items k { Object := wi, Expiration := it.Expiration } },
         none) := by
    unfold Cache.Increment
    simp [hlook, hexp, hwi]
  have hdec : c.Decrement now k n
      = ({ c with items :=
            insertItem c.items k { Object := wd, Expiration := it.Expiration } },
         none) := by
    unfold Cache.Decrement
    simp [hlook, hexp, hwd]
  have hexp2 : ∀ o : GoVal,
      Item.Expired { Object := o, Expiration := it.Expiration } now = false := by
    intro o
    unfold Item.Expired at hexp ⊢
    exact hexp
  refine ⟨?_, ?_, ?_, ?_, ?_, ?_, ?_, ?_⟩
  · rw [hinc]
  · rw [hinc]
    exact lookupItem_insert c.items k _
  · rw [hinc]
    unfold Cache.Get
    simp only [lookupItem_insert]
    rw [hexp2 wi]
    simp
  · rw [hdec]
  · rw [hdec]
    exact lookupItem_insert c.items k _
  · rw [hdec]
    unfold Cache.Get
    simp only [lookupItem_insert]
    rw [hexp2 wd]
    simp
  · intro x hobj h1 h2
    rw [hobj] at hwi
    unfold incGoVal at hwi
    have hw : wi = GoVal.VInt64 (sconv 64 (x + n)) :=
      (Option.some_inj.mp hwi).symm
    rw [hw, sconv_eq_self 64 (x + n) (by omega) (by norm_num; omega)
      (by norm_num; omega)]
  · intro x hobj h1 h2
    rw [hobj] at hwi
    unfold incGoVal at hwi
    have hw : wi = GoVal.VUint8 (goAddU 8 x n) :=
      (Option.some_inj.mp hwi).symm
    rw [hw, goAddU_eq, Int.emod_eq_of_lt h1 (by norm_num; omega)]

/-- C3 witness: `uint8` payload 7, increment by 2 and decrement by 2. -/
theorem C3_witness :
    ((u8Cache 7).Increment 0 "u" 2).2 = none ∧
    ((u8Cache 7).Increment 0 "u" 2).1.Get 0 "u" = some (GoVal.VUint8 9) ∧
    ((u8Cache 7).Decrement 0 "u" 2).1.Get 0 "u" = some (GoVal.VUint8 5) := by
  have h := C3_increment_machine_sum (u8Cache 7) 0 "u" 2
    { Object := GoVal.VUint8 7, Expiration := 0 }
    (GoVal.VUint8 9) (GoVal.VUint8 5)
    (by decide) (by decide) (by decide) (by decide)
  exact ⟨h.1, h.2.2.1, h.2.2.2.2.2.1⟩

/-- C4: `Add(k, v, ttl)` fails with `AlreadyExists` precisely when a live
(non-expired) entry for `k` is present at call time — an expired-but-present
entry counts as absent — and on failure the whole state is returned
unchanged; otherwise `Add` has exactly the effect of `Set(k, v, ttl)`. -/
theorem C4_add_iff_live (c : Cache) (now : Int) (k : String) (x : GoVal)
    (d : Int) :
    (isLive c now k = true →
      c.Add now k x d = (c, some CacheError.alreadyExists)) ∧
    (isLive c now k = false →
      c.Add now k x d = (c.Set now k x d, none)) := by
  have hset : Cache.set c now k x d = Cache.Set c now k x d := rfl
  constructor
  · intro h
    unfold Cache.Add Cache.get
    cases hl : lookupItem c.items k with
    | none =>
      simp only [isLive, hl] at h
      exact absurd h (by simp)
    | some it =>
      simp only [isLive, hl] at h
      have hexp : it.Expired now = false := by
        cases he : it.Expired now
        · rfl
        · rw [he] at h
          simp at h
      simp [hl, hexp]
  · intro h
    unfold Cache.Add Cache.get
    cases hl : lookupItem c.items k with
    | none => simp [hl, hset]
    | some it =>
      simp only [isLive, hl] at h
      have hexp : it.Expired now = true := by
        cases he : it.Expired now
        · rw [he] at h
          simp at h
        · rfl
      simp [hl, hexp, hset]

/-- C4 witness: `Add` on an occupied live key fails and leaves the table as
it was; `Add` on a fresh key acts as `Set`. -/
theorem C4_witness :
    strCache.Add 3 "s" (GoVal.VInt 1) 0
      = (strCache, some CacheError.alreadyExists) ∧
    strCache.Add 3 "t" (GoVal.VInt 1) 0
      = (strCache.Set 3 "t" (GoVal.VInt 1) 0, none) :=
  ⟨(C4_add_iff_live strCache 3 "s" (GoVal.VInt 1) 0).1 (by decide),
   (C4_add_iff_live strCache 3 "t" (GoVal.VInt 1) 0).2 (by decide)⟩

/-- C5: `Replace(k, v, ttl)` fails with `NotFound` precisely when no live
entry for `k` is present at call time — an expired-but-physically-present
entry counts as absent — and on failure the whole state is returned
unchanged; otherwise `Replace` has exactly the effect of `Set(k, v, ttl)`. -/
theorem C5_replace_iff_live (c : Cache) (now : Int) (k : String) (x : GoVal)
    (d : Int) :
    (isLive c now k = false →
      c.Replace now k x d = (c, some CacheError.notFound)) ∧
    (isLive c now k = true →
      c.Replace now k x d = (c.Set now k x d, none)) := by
  have hset : Cache.set c now k x d = Cache.Set c now k x d := rfl
  constructor
  · intro h
    unfold Cache.Replace Cache.get
    cases hl : lookupItem c.items k with
    | none => simp [hl]
    | some it =>
      simp only [isLive, hl] at h
      have hexp : it.Expired now = true := by
        cases he : it.Expired now
        · rw [he] at h
          simp at h
        · rfl
      simp [hl, hexp]
  · intro h
    unfold Cache.Replace Cache.get
    cases hl : lookupItem c.items k with
    | none =>
      simp only [isLive, hl] at h
      exact absurd h (by simp)
    | some it =>
      simp only [isLive, hl] at h
      have hexp : it.Expired now = false := by
        cases he : it.Expired now
        · rfl
        · rw [he] at h
          simp at h
      simp [hl, hexp, hset]

/-- C5 witness: `Replace` on a missing key fails and leaves the table as it
was; on an expired-but-present key (`"e"` of `mixCache` at instant 9) it also
fails; on a live key it acts as `Set`. -/
theorem C5_witness :
    strCache.Replace 3 "t" (GoVal.VInt 1) 0
      = (strCache, some CacheError.notFound) ∧
    mixCache.Replace 9 "e" (GoVal.VInt 1) 0
      = (mixCache, some CacheError.notFound) ∧
    strCache.Replace 3 "s" (GoVal.VInt 1) 0
      = (strCache.Set 3 "s" (GoVal.VInt 1) 0, none) :=
  ⟨(C5_replace_iff_live strCache 3 "t" (GoVal.VInt 1) 0).1 (by decide),
   (C5_replace_iff_live mixCache 9 "e" (GoVal.VInt 1) 0).1 (by decide),
   (C5_replace_iff_live strCache 3 "s" (GoVal.VInt 1) 0).2 (by decide)⟩

/-- C6: on a table with distinct keys and nonnegative expiration stamps (as
every reachable table has), `DeleteExpired()` removes exactly the entries
whose expiration is set (non-zero) and strictly earlier than the single `now`
captured at scan start; entries with no expiration always survive; and a
second `DeleteExpired()` at the same clock reading changes nothing and fires
no callbacks. -/
theorem C6_deleteExpired_exact (c : Cache) (now : Int)
    (hnd : keysNodup c.items)
    (hnn : ∀ kv ∈ c.items, 0 ≤ kv.2.Expiration) :
    (c.DeleteExpired now).1.items
      = c.items.filter
          (fun kv => decide ¬ (kv.2.Expiration ≠ 0 ∧ kv.2.Expiration < now)) ∧
    (∀ kv ∈ c.items, kv.2.Expiration = 0 →
      kv ∈ (c.DeleteExpired now).1.items) ∧
    (c.DeleteExpired now).1.DeleteExpired now
      = ((c.DeleteExpired now).1, []) := by
  have hspec := deleteExpired_spec c now hnd
  have hc1 : (c.DeleteExpired now).1.items
      = c.items.filter (fun kv => ! sweepCond now kv.2) := by
    rw [hspec]
  have hfe : ∀ kv ∈ c.items, (! sweepCond now kv.2)
      = decide ¬ (kv.2.Expiration ≠ 0 ∧ kv.2.Expiration < now) := by
    intro kv hm
    have h0 := hnn kv hm
    unfold sweepCond
    rw [decide_not]
    apply congrArg
    rw [decide_eq_decide]
    constructor
    · intro hx
      exact ⟨by omega, hx.2⟩
    · intro hx
      rcases hx with ⟨h1, h2⟩
      exact ⟨by omega, h2⟩
  have hmem : ∀ kv ∈ c.items, kv.2.Expiration = 0 →
      kv ∈ (c.DeleteExpired now).1.items := by
    intro kv hm h0
    rw [hc1]
    refine List.mem_filter.mpr ⟨hm, ?_⟩
    unfold sweepCond
    simp [h0]
  have hnd2 : keysNodup (c.DeleteExpired now).1.items := by
    rw [hc1]
    exact hnd.sublist ((List.filter_sublist _).map Prod.fst)
  have hspec2 := deleteExpired_spec (c.DeleteExpired now).1 now hnd2
  have hff : ((c.DeleteExpired now).1.items).filter
      (fun kv => ! sweepCond now kv.2) = (c.DeleteExpired now).1.items := by
    rw [List.filter_eq_self]
    intro kv hm
    rw [hc1] at hm
    exact (List.mem_filter.mp hm).2
  have hfnil : ((c.DeleteExpired now).1.items).filter
      (fun kv => sweepCond now kv.2) = [] := by
    rw [List.filter_eq_nil_iff]
    intro kv hm
    rw [hc1] at hm
    have h2 := (List.mem_filter.mp hm).2
    simp only [Bool.not_eq_true'] at h2
    simp [h2]
  refine ⟨by rw [hc1]; exact List.filter_congr hfe, hmem, ?_⟩
  rw [hspec2, hff, hfnil]
  simp

/-- C6 witness: at instant 10 the sweep removes exactly the entry that
expired at 5, keeps the never-expiring one, and a second sweep at the same
instant is a no-op firing nothing. -/
theorem C6_witness :
    (mixCache.DeleteExpired 10).1.items
      = [("n", { Object := GoVal.VStr "keep", Expiration := 0 })] ∧
    (mixCache.DeleteExpired 10).1.DeleteExpired 10
      = ((mixCache.DeleteExpired 10).1, []) := by
  have h := C6_deleteExpired_exact mixCache 10 (by decide) (by decide)
  refine ⟨?_, h.2.2⟩
  rw [h.1]
  decide

/-- C7: `Delete(k)` removes the entry unconditionally (and signals no error:
it returns nothing); when a callback is registered and an entry for `k` was
physically present — expired or not — the callback fires exactly once with
`k` and the removed payload; with no callback registered, or no entry
present, no callback fires. -/
theorem C7_delete (c : Cache) (k : String) :
    (c.Delete k).1 = { c with items := eraseItem c.items k } ∧
    (∀ it, c.onEvicted = true → lookupItem c.items k = some it →
      (c.Delete k).2 = [(k, it.Object)]) ∧
    (c.onEvicted = false → (c.Delete k).2 = []) ∧
    (lookupItem c.items k = none → (c.Delete k).2 = []) := by
  refine ⟨?_, ?_, ?_, ?_⟩
  · unfold Cache.Delete Cache.del
    by_cases hev : c.onEvicted = true
    · cases hl : lookupItem c.items k <;> simp [hev, hl]
    · simp [hev]
  · intro it hev hl
    unfold Cache.Delete Cache.del
    simp [hev, hl]
  · intro hev
    unfold Cache.Delete Cache.del
    simp [hev]
  · intro hl
    unfold Cache.Delete Cache.del
    by_cases hev : c.onEvicted = true <;> simp [hev, hl]

/-- C7 witness: deleting the (expired) entry `"e"` of `mixCache` fires the
callback once with the removed payload; deleting an absent key removes
nothing and fires nothing. -/
theorem C7_witness :
    (mixCache.Delete "e").1 = { mixCache with items := eraseItem mixCache.items "e" } ∧
    (mixCache.Delete "e").2 = [("e", GoVal.VInt 7)] ∧
    (mixCache.Delete "zzz").2 = [] :=
  ⟨(C7_delete mixCache "e").1,
   (C7_delete mixCache "e").2.1 { Object := GoVal.VInt 7, Expiration := 5 }
     (by decide) (by decide),
   (C7_delete mixCache "zzz").2.2.2 (by decide)⟩

/-- C8: a `Delete(k)` racing with a `DeleteExpired()` sweep over an
expired-but-present entry is serialized by the table's write lock, so its
effect is one of the two orders modelled here; in both orders the eviction
callback for `k` fires exactly once — never zero times and never twice. -/
theorem C8_exactly_once (c : Cache) (now : Int) (k : String) (it : Item)
    (hnd : keysNodup c.items) (hev : c.onEvicted = true)
    (hlook : lookupItem c.items k = some it)
    (hsc : sweepCond now it = true) :
    (((c.Delete k).2 ++ ((c.Delete k).1.DeleteExpired now).2).filter
        (fun e => decide (e.1 = k))).length = 1 ∧
    (((c.DeleteExpired now).2 ++ ((c.DeleteExpired now).1.Delete k).2).filter
        (fun e => decide (e.1 = k))).length = 1 := by
  constructor
  · have hdel2 : (c.Delete k).2 = [(k, it.Object)] := by
      unfold Cache.Delete Cache.del
      simp [hev, hlook]
    have hdel1 : (c.Delete k).1 = { c with items := eraseItem c.items k } := by
      unfold Cache.Delete Cache.del
      by_cases h2 : c.onEvicted = true
      · cases hl : lookupItem c.items k <;> simp [h2, hl]
      · simp [h2]
    have hsub : List.Sublist ((eraseItem c.items k).map Prod.fst)
        (c.items.map Prod.fst) := by
      unfold eraseItem
      exact (List.filter_sublist _).map Prod.fst
    have hnd2 : keysNodup (eraseItem c.items k) := hnd.sublist hsub
    have hspec2 := deleteExpired_spec { c with items := eraseItem c.items k }
      now hnd2
    have hevs2 : (((c.Delete k).1.DeleteExpired now).2).filter
        (fun e => decide (e.1 = k)) = [] := by
      rw [hdel1, hspec2]
      rw [if_pos hev]
      exact filterKey_map_nil (eraseItem c.items k) k _
        (eraseItem_key_not_mem c.items k)
    rw [List.filter_append, List.length_append, hdel2, hevs2]
    simp
  · have hspec := deleteExpired_spec c now hnd
    have hevsB : ((c.DeleteExpired now).2).filter (fun e => decide (e.1 = k))
        = [(k, it.Object)] := by
      rw [hspec]
      rw [if_pos hev]
      exact filterKey_map_single c.items k it _ hnd hlook hsc
    have honE : (c.DeleteExpired now).1.onEvicted = true := by
      rw [hspec]
      exact hev
    have hlookB : lookupItem ((c.DeleteExpired now).1).items k = none := by
      rw [hspec]
      exact lookupItem_filter_none c.items k it _ hnd hlook (by simp [hsc])
    have hdelB : (((c.DeleteExpired now).1).Delete k).2 = [] := by
      unfold Cache.Delete Cache.del
      simp [honE, hlookB]
    rw [List.filter_append, List.length_append, hevsB, hdelB]
    simp

/-- C8 witness: both serialization orders of `Delete("e")` and the sweep at
instant 10 on `mixCache` (entry `"e"` expired at 5, callback registered)
yield exactly one eviction of `"e"`. -/
theorem C8_witness :
    (((mixCache.Delete "e").2
        ++ ((mixCache.Delete "e").1.DeleteExpired 10).2).filter
      (fun e => decide (e.1 = "e"))).length = 1 ∧
    (((mixCache.DeleteExpired 10).2
        ++ ((mixCache.DeleteExpired 10).1.Delete "e").2).filter
      (fun e => decide (e.1 = "e"))).length = 1 :=
  C8_exactly_once mixCache 10 "e" { Object := GoVal.VInt 7, Expiration := 5 }
    (by decide) (by decide) (by decide) (by decide)

/-- C9: with no eviction callback registered, `Delete(k)` and
`DeleteExpired()` still physically remove the targeted entries and perform no
callback invocation at all (the nil callback is never called). -/
theorem C9_nil_callback (c : Cache) (now : Int) (k : String)
    (hev : c.onEvicted = false) (hnd : keysNodup c.items) :
    (c.Delete k).1 = { c with items := eraseItem c.items k } ∧
    (c.Delete k).2 = [] ∧
    (c.DeleteExpired now).1
      = { c with items := c.items.filter (fun kv => ! sweepCond now kv.2) } ∧
    (c.DeleteExpired now).2 = [] := by
  have hspec := deleteExpired_spec c now hnd
  refine ⟨?_, ?_, ?_, ?_⟩
  · unfold Cache.Delete Cache.del
    simp [hev]
  · unfold Cache.Delete Cache.del
    simp [hev]
  · rw [hspec]
  · rw [hspec]
    simp [hev]

/-- C9 witness: `mixCache` with its callback cleared: `Delete` and the sweep
still remove the entries, with an empty invocation list. -/
theorem C9_witness :
    ((mixCache.OnEvicted false).Delete "e").1.items
      = [("n", { Object := GoVal.VStr "keep", Expiration := 0 })] ∧
    ((mixCache.OnEvicted false).Delete "e").2 = [] ∧
    ((mixCache.OnEvicted false).DeleteExpired 10).1.items
      = [("n", { Object := GoVal.VStr "keep", Expiration := 0 })] ∧
    ((mixCache.OnEvicted false).DeleteExpired 10).2 = [] := by
  have h := C9_nil_callback (mixCache.OnEvicted false) 10 "e"
    (by decide) (by decide)
  refine ⟨?_, h.2.1, ?_, h.2.2.2⟩
  · rw [h.1]
    decide
  · rw [h.2.2.1]
    decide

end GoCache
